import Mathlib

/-!
Shallow embedding of the enrichment and consolidation pipeline of the
chess_lakehouse repository, together with theorems checking the stated
properties of its specification.

The embedding covers, from `src/find-openings.ts`: the SQL opening
classifier (CONTAINS-based matching, `array_length(string_split(uci, ' '))`
ply computation, `ORDER BY opening_ply DESC LIMIT 1` selection, and the
`UPDATE ... WHERE Opening IS NULL` write-back), the per-store DataSource
tagging, and the copy-to-destination path handling; from
`src/export-to-parquet.ts`: the per-store filtered projection, the
`UTCDate` filter, the DataSource override, the lexicographic store
ordering, the clean-slate output handling and the partition keys; from
`src/lib/pipeline-utils.ts`: `sqlStringLiteral` escaping.
-/

namespace ChessLakehouse

/-- Calendar date carried by the `UTCDate` column. -/
structure Date where
  year : Int
  month : Nat
  day : Nat
deriving DecidableEq

/-- Row of the read-only `openings` catalogue table (`openings.openings`). -/
structure OpeningEntry where
  eco : String
  name : String
  uci : String
  pgn : String
deriving DecidableEq

/-- Row of a per-source `games` table, with the columns the pipeline reads
or writes. `eco`/`opening` are the mutable classification output,
`parseError` the parse diagnostic, `dataSource` the provenance label added
during enrichment. -/
structure Game where
  event : String
  site : String
  white : String
  black : String
  result : String
  whiteTitle : String
  blackTitle : String
  whiteElo : String
  blackElo : String
  utcDate : Option Date
  utcTime : String
  eco : Option String
  opening : Option String
  termination : String
  timeControl : String
  source : String
  movetext : String
  cleanMovetext : String
  parseError : Option String
  dataSource : Option String
deriving DecidableEq

/-- Row of the `combined` table produced by `export-to-parquet.ts`: the
explicit SELECT list plus the derived `year` and `month` partition
columns. `parseError` and `cleanMovetext` are not part of the projection. -/
structure Row where
  event : String
  site : String
  white : String
  black : String
  result : String
  whiteTitle : String
  blackTitle : String
  whiteElo : String
  blackElo : String
  utcDate : Option Date
  utcTime : String
  eco : Option String
  opening : Option String
  termination : String
  timeControl : String
  source : String
  movetext : String
  dataSource : Option String
  year : Option Int
  month : Option String
deriving DecidableEq

/-- Test whether the pattern is a prefix of the haystack, character by
character. Helper for the substring test. -/
def leadsWith : List Char → List Char → Bool
  | [], _ => true
  | _ :: _, [] => false
  | c :: p, d :: h => c == d && leadsWith p h

/-- DuckDB `CONTAINS(haystack, needle)`: substring containment. -/
def sqlContains : List Char → List Char → Bool
  | hay, pat =>
    leadsWith pat hay ||
      (match hay with
       | [] => false
       | _ :: t => sqlContains t pat)

/-- Matching predicate of the classifier join:
`CONTAINS(t.clean_movetext, o.pgn)` in `find-openings.ts`. -/
def openingMatches (g : Game) (e : OpeningEntry) : Bool :=
  sqlContains g.cleanMovetext.data e.pgn.data

/-- DuckDB `string_split(s, ' ')` on the character list of `s`: split at
every space, keeping empty fragments. -/
def splitSp : List Char → List (List Char)
  | [] => [[]]
  | c :: cs =>
    if c = ' ' then [] :: splitSp cs
    else
      match splitSp cs with
      | t :: ts => (c :: t) :: ts
      | [] => [[c]]

/-- `opening_ply` of a catalogue entry:
`array_length(string_split(uci, ' '))` in `find-openings.ts`. -/
def openingPly (e : OpeningEntry) : Nat :=
  (splitSp e.uci.data).length

/-- Lateral subquery of the classifier: among the catalogue entries whose
`pgn` is contained in the game's `clean_movetext`, pick one of greatest
`opening_ply` (`ORDER BY o.opening_ply DESC LIMIT 1`; the tie-break among
equal plies is unspecified by the engine, modelled here as the first
maximal entry in catalogue order). -/
def selectOpening (g : Game) (cat : List OpeningEntry) : Option OpeningEntry :=
  List.argmax openingPly (cat.filter (fun e => openingMatches g e))

/-- Effect of the `UPDATE games ... FROM target t JOIN LATERAL ... ON TRUE`
statement on a single row: rows with `Opening IS NULL` and at least one
matching catalogue entry receive the selected entry's `eco` and `name`;
all other rows are unchanged. -/
def classifyGame (cat : List OpeningEntry) (g : Game) : Game :=
  match g.opening with
  | some _ => g
  | none =>
    match selectOpening g cat with
    | none => g
    | some e => { g with eco := some e.eco, opening := some e.name }

/-- Classifier pass over a whole `games` table. -/
def classifyStore (cat : List OpeningEntry) (store : List Game) : List Game :=
  store.map (classifyGame cat)

/-- Effect of `UPDATE games SET DataSource = '<label>'` on a single row. -/
def setDataSource (lbl : String) (g : Game) : Game :=
  { g with dataSource := some lbl }

/-- Enrichment of one store as performed by `find-openings.ts`: tag every
row with the provenance label, then run the classifier pass. -/
def enrichStore (lbl : String) (cat : List OpeningEntry) (store : List Game) : List Game :=
  classifyStore cat (store.map (setDataSource lbl))

/-- Single quote character, written by code point to keep source plain. -/
def quoteChar : Char := Char.ofNat 39

/-- Escaping of `sqlStringLiteral` in `pipeline-utils.ts`:
`s.replaceAll("'", "''")` on the character list. -/
def sqlEscape : List Char → List Char
  | [] => []
  | c :: cs =>
    if c = quoteChar then quoteChar :: quoteChar :: sqlEscape cs
    else c :: sqlEscape cs

/-- `sqlStringLiteral` of `pipeline-utils.ts`: double every single quote. -/
def sqlStringLiteral (s : String) : String :=
  String.mk (sqlEscape s.data)

/-- Value denoted by the body of a SQL single-quoted string literal: a
doubled quote denotes one quote, an undoubled quote would end the literal
early and is rejected, every other character denotes itself. -/
def sqlLiteralValue : List Char → Option (List Char)
  | [] => some []
  | c :: cs =>
    if c = quoteChar then
      match cs with
      | [] => none
      | d :: ds =>
        if d = quoteChar then (sqlLiteralValue ds).map (fun v => quoteChar :: v)
        else none
    else (sqlLiteralValue cs).map (fun v => c :: v)

/-- Effect of `UPDATE games SET DataSource = '<body>'` where `<body>` is
the body of the embedded SQL string literal: every row's `DataSource`
becomes the value the literal denotes. -/
def dataSourceUpdate (body : List Char) (store : List Game) : Option (List Game) :=
  (sqlLiteralValue body).map (fun v => store.map (setDataSource (String.mk v)))

/-- Export filter of `export-to-parquet.ts`:
`WHERE UTCDate IS NOT NULL AND year(UTCDate) >= 1500`. -/
def exportFilter (g : Game) : Bool :=
  match g.utcDate with
  | none => false
  | some d => decide (1500 ≤ d.year)

/-- DuckDB `strftime(UTCDate, '%m')`: zero-padded two-digit month. -/
def monthStr (d : Date) : String :=
  if d.month < 10 then "0" ++ toString d.month else toString d.month

/-- Projection of the export SELECT list: the listed columns, `DataSource`
either the fixed override or the per-row column, and the derived `year`
and `month` partition columns. -/
def projectRow (ov : Option String) (g : Game) : Row :=
  { event := g.event
    site := g.site
    white := g.white
    black := g.black
    result := g.result
    whiteTitle := g.whiteTitle
    blackTitle := g.blackTitle
    whiteElo := g.whiteElo
    blackElo := g.blackElo
    utcDate := g.utcDate
    utcTime := g.utcTime
    eco := g.eco
    opening := g.opening
    termination := g.termination
    timeControl := g.timeControl
    source := g.source
    movetext := g.movetext
    dataSource := match ov with | some s => some s | none => g.dataSource
    year := g.utcDate.map Date.year
    month := g.utcDate.map monthStr }

/-- Filtered projection of one source store (`SELECT ... FROM src.games
WHERE ...`). -/
def filteredRows (ov : Option String) (store : List Game) : List Row :=
  (store.filter exportFilter).map (projectRow ov)

/-- Contents of the `combined` table: `CREATE TABLE combined AS` for the
first store, then `INSERT INTO combined` for each later store, in list
order. -/
def consolidate (ov : Option String) (stores : List (List Game)) : List Row :=
  stores.foldl (fun acc s => acc ++ filteredRows ov s) []

/-- Lexicographic comparison of path characters by code point, the
embedding of the `localeCompare`-based sort of discovered store paths. -/
def pathLe : List Char → List Char → Bool
  | [], _ => true
  | _ :: _, [] => false
  | c :: cs, d :: ds =>
    if c.toNat < d.toNat then true
    else if d.toNat < c.toNat then false
    else pathLe cs ds

/-- Ordering of discovered stores, keyed by path. -/
def storeOrder (a b : String × List Game) : Prop :=
  pathLe a.1.data b.1.data = true

instance : DecidableRel storeOrder := fun a b => by
  unfold storeOrder; infer_instance

/-- Deterministic ordering of the discovered stores:
`.sort((a, b) => a.localeCompare(b))` in `export-to-parquet.ts`. -/
def sortStores (files : List (String × List Game)) : List (String × List Game) :=
  List.insertionSort storeOrder files

/-- Store contents in export order. -/
def storesOf (files : List (String × List Game)) : List (List Game) :=
  (sortStores files).map Prod.snd

/-- Partition key of an exported row: `PARTITION_BY (DataSource, year,
month)`. -/
def partKey (r : Row) : Option String × Option Int × Option String :=
  (r.dataSource, r.year, r.month)

/-- Number of rows of the output that fall in a given partition. -/
def partitionCount (out : List Row) (k : Option String × Option Int × Option String) : Nat :=
  (out.filter (fun r => decide (partKey r = k))).length

/-- Effect of `rmSync(outDir, { recursive: true, force: true })` followed
by `mkdirSync(outDir)`: whatever the output directory held before, it is
now empty. -/
def clearOutput (_prev : List Row) : List Row := []

/-- Effect of `COPY combined TO outDir (PARTITION_BY ...)`: the cleared
directory receives exactly the combined rows. -/
def writePartitioned (dir rows : List Row) : List Row :=
  dir ++ rows

/-- One consolidation run of `export-to-parquet.ts` over a set of
discovered stores, starting from an arbitrary previous output state. -/
def runConsolidation (prev : List Row) (ov : Option String)
    (files : List (String × List Game)) : List Row :=
  writePartitioned (clearOutput prev) (consolidate ov (storesOf files))

/-- File system fragment holding the per-source stores, keyed by path
components. -/
def FS : Type := List String → Option (List Game)

/-- Destination path of one store in `find-openings.ts`:
`join(outDir, relative(inDir, srcDb))`. -/
def dstPath (inDir outDir src : List String) : List String :=
  outDir ++ src.drop inDir.length

/-- One iteration of the enrichment loop: copy the source store to its
destination path and enrich the copy there. -/
def enrichStep (inDir outDir : List String) (lbl : String)
    (cat : List OpeningEntry) (fs : FS) (src : List String) : FS :=
  fun p =>
    if p = dstPath inDir outDir src then (fs src).map (enrichStore lbl cat)
    else fs p

/-- The enrichment loop of `find-openings.ts` over the discovered store
paths. -/
def runEnricher (inDir outDir : List String) (lbl : String)
    (cat : List OpeningEntry) (srcs : List (List String)) (fs : FS) : FS :=
  srcs.foldl (enrichStep inDir outDir lbl cat) fs

/-- Game record with neutral fields, used to build concrete test rows. -/
def baseGame : Game :=
  { event := "Rated Blitz game"
    site := "https://lichess.org"
    white := "WhitePlayer"
    black := "BlackPlayer"
    result := "1-0"
    whiteTitle := ""
    blackTitle := ""
    whiteElo := "2100"
    blackElo := "2050"
    utcDate := some ⟨2020, 5, 17⟩
    utcTime := "12:00:00"
    eco := none
    opening := none
    termination := "Normal"
    timeControl := "300+0"
    source := "lumbras"
    movetext := "1. e4 e5 2. Nf3 Nc6"
    cleanMovetext := "1. e4 e5 2. Nf3 Nc6"
    parseError := none
    dataSource := none }

/-- Catalogue entry for 1. e4 e5, ply 2. -/
def kingsPawn : OpeningEntry :=
  { eco := "C20", name := "Kings Pawn Game", uci := "e2e4 e7e5", pgn := "1. e4 e5" }

/-- Catalogue entry for 1. e4 e5 2. Nf3 Nc6, ply 4. -/
def kingsKnight : OpeningEntry :=
  { eco := "C44", name := "Kings Knight Opening", uci := "e2e4 e7e5 g1f3 b8c6", pgn := "1. e4 e5 2. Nf3 Nc6" }

/-- Catalogue entry that matches none of the test games. -/
def frenchDefense : OpeningEntry :=
  { eco := "C00", name := "French Defense", uci := "e2e4 e7e6", pgn := "1. e4 e6" }

/-- Game row carrying a per-row DataSource label, for the override tests. -/
def origGame : Game := { baseGame with dataSource := some "orig" }

/-- Game row with a non-null parse diagnostic and a valid 2020 date. -/
def badParseGame : Game := { baseGame with parseError := some "Invalid SAN at ply 7" }

/-- Strict version of the store ordering: strictly smaller path. -/
def storeLt (a b : String × List Game) : Prop :=
  storeOrder a b ∧ a.1 ≠ b.1

/-- Discovered store with path "a.duckdb". -/
def aStore : String × List Game := ("a.duckdb", [baseGame])

/-- Discovered store with path "b.duckdb". -/
def bStore : String × List Game := ("b.duckdb", [origGame])

/-- Provenance label containing a single quote, for the escaping tests. -/
def quoteLabel : String := String.mk [quoteChar, 'd', 'b']

/-! Helper lemmas about the substring test. -/

theorem leadsWith_iff (pat hay : List Char) :
    leadsWith pat hay = true ↔ ∃ t, hay = pat ++ t := by
  induction pat generalizing hay with
  | nil => simp [leadsWith]
  | cons c p ih =>
    cases hay with
    | nil => simp [leadsWith]
    | cons d h =>
      simp only [leadsWith, Bool.and_eq_true, beq_iff_eq, ih, List.cons_append,
        List.cons.injEq]
      constructor
      · rintro ⟨rfl, t, rfl⟩
        exact ⟨t, rfl, rfl⟩
      · rintro ⟨t, rfl, rfl⟩
        exact ⟨rfl, t, rfl⟩

theorem sqlContains_iff (hay pat : List Char) :
    sqlContains hay pat = true ↔ ∃ l r, hay = l ++ pat ++ r := by
  induction hay with
  | nil =>
    show (leadsWith pat [] || false) = true ↔ _
    simp only [Bool.or_false, leadsWith_iff]
    constructor
    · rintro ⟨t, ht⟩
      exact ⟨[], t, by simpa using ht⟩
    · rintro ⟨l, r, h⟩
      rcases List.append_eq_nil.mp h.symm with ⟨h2, rfl⟩
      rcases List.append_eq_nil.mp h2 with ⟨rfl, rfl⟩
      exact ⟨[], rfl⟩
  | cons c t ih =>
    show (leadsWith pat (c :: t) || sqlContains t pat) = true ↔ _
    simp only [Bool.or_eq_true, leadsWith_iff, ih]
    constructor
    · rintro (⟨s, hs⟩ | ⟨l, r, hl⟩)
      · exact ⟨[], s, by simpa using hs⟩
      · exact ⟨c :: l, r, by simp [hl]⟩
    · rintro ⟨l, r, hl⟩
      cases l with
      | nil => exact Or.inl ⟨r, by simpa using hl⟩
      | cons c₂ l₂ =>
        simp only [List.cons_append, List.cons.injEq] at hl
        exact Or.inr ⟨l₂, r, hl.2⟩

/-- C1: the Opening Classifier considers a catalogue entry a match for a
game exactly when the entry's `pgn` string occurs as a substring of the
game's `cleanMovetext`; in particular an entry with pgn "1. e4 e5" matches
a game with cleanMovetext "1. e4 e5 2. Nf3 Nc6". -/
theorem c1_match_is_substring_containment :
    (∀ (g : Game) (e : OpeningEntry),
      openingMatches g e = true ↔
        ∃ l r, g.cleanMovetext.data = l ++ e.pgn.data ++ r) ∧
    openingMatches { baseGame with cleanMovetext := "1. e4 e5 2. Nf3 Nc6" } kingsPawn = true := by
  exact ⟨fun g e => sqlContains_iff _ _, by decide⟩

/-- C2: an unclassified game with at least one matching catalogue entry is
given exactly one entry, one of greatest `opening_ply` among all matching
entries, and both `eco` and `opening` are set from that entry. -/
theorem c2_greatest_ply_applied (g : Game) (cat : List OpeningEntry)
    (hnull : g.opening = none)
    (hex : ∃ e ∈ cat, openingMatches g e = true) :
    ∃ e, selectOpening g cat = some e ∧ e ∈ cat ∧ openingMatches g e = true ∧
      (∀ e₂ ∈ cat, openingMatches g e₂ = true → openingPly e₂ ≤ openingPly e) ∧
      (classifyGame cat g).eco = some e.eco ∧
      (classifyGame cat g).opening = some e.name := by
  obtain ⟨e₀, he₀, hm₀⟩ := hex
  have hmem₀ : e₀ ∈ cat.filter (fun e => openingMatches g e) :=
    List.mem_filter.mpr ⟨he₀, hm₀⟩
  obtain ⟨e, he⟩ : ∃ e, selectOpening g cat = some e := by
    cases hsel : selectOpening g cat with
    | none =>
      rw [selectOpening, List.argmax_eq_none] at hsel
      simp [hsel] at hmem₀
    | some e => exact ⟨e, rfl⟩
  have hememb : e ∈ cat.filter (fun e => openingMatches g e) :=
    List.argmax_mem he
  refine ⟨e, he, (List.mem_filter.mp hememb).1, (List.mem_filter.mp hememb).2, ?_, ?_, ?_⟩
  · intro e₂ h₂ hm₂
    exact not_lt.mp
      (List.not_lt_of_mem_argmax (List.mem_filter.mpr ⟨h₂, hm₂⟩) he)
  · simp [classifyGame, hnull, he]
  · simp [classifyGame, hnull, he]

/-- Witness for C2: with catalogue entries of ply 2 and ply 4 both
contained in the movetext, the ply-4 entry is applied. -/
theorem c2_greatest_ply_applied_witness :
    (classifyGame [kingsPawn, kingsKnight] baseGame).opening = some kingsKnight.name := by
  obtain ⟨e, hsel, -, -, -, -, hop⟩ :=
    c2_greatest_ply_applied baseGame [kingsPawn, kingsKnight] rfl
      ⟨kingsPawn, by simp, by decide⟩
  have h₂ : selectOpening baseGame [kingsPawn, kingsKnight] = some kingsKnight := by decide
  rw [h₂] at hsel
  rw [hop, Option.some_inj.mp hsel]

/-! Helper lemmas about re-running the classifier. -/

theorem classifyGame_of_classified (cat : List OpeningEntry) (g : Game) (x : String)
    (h : g.opening = some x) : classifyGame cat g = g := by
  simp [classifyGame, h]

theorem classifyGame_idem (cat : List OpeningEntry) (g : Game) :
    classifyGame cat (classifyGame cat g) = classifyGame cat g := by
  cases hop : g.opening with
  | some x => simp [classifyGame, hop]
  | none =>
    cases hsel : selectOpening g cat with
    | none => simp [classifyGame, hop, hsel]
    | some e =>
      have h₁ : classifyGame cat g = { g with eco := some e.eco, opening := some e.name } := by
        simp [classifyGame, hop, hsel]
      rw [h₁]
      simp [classifyGame]

/-- C4: classification is attempted only for games with a null `opening`
(an already-classified game is returned unchanged), and a second
classifier pass over a store changes nothing. -/
theorem c4_idempotent_classification (cat : List OpeningEntry) :
    (∀ (g : Game) (x : String), g.opening = some x → classifyGame cat g = g) ∧
    (∀ store : List Game,
      classifyStore cat (classifyStore cat store) = classifyStore cat store) := by
  refine ⟨classifyGame_of_classified cat, ?_⟩
  intro store
  induction store with
  | nil => rfl
  | cons g t ih =>
    simp only [classifyStore, List.map_cons] at ih ⊢
    rw [classifyGame_idem]
    exact congrArg _ ih

/-- Witness for C4: an already-classified game is left untouched by the
classifier. -/
theorem c4_idempotent_classification_witness :
    classifyGame [kingsPawn] { baseGame with opening := some "Sicilian Defense" } =
      { baseGame with opening := some "Sicilian Defense" } :=
  (c4_idempotent_classification [kingsPawn]).1 _ "Sicilian Defense" rfl

theorem classifyGame_of_no_selection (cat : List OpeningEntry) (g : Game)
    (hop : g.opening = none) (hs : selectOpening g cat = none) :
    classifyGame cat g = g := by
  simp [classifyGame, hop, hs]

theorem classifyGame_of_selection (cat : List OpeningEntry) (g : Game) (e : OpeningEntry)
    (hop : g.opening = none) (hs : selectOpening g cat = some e) :
    classifyGame cat g = { g with eco := some e.eco, opening := some e.name } := by
  simp [classifyGame, hop, hs]

theorem classifyGame_no_match (cat : List OpeningEntry) (g : Game)
    (hnm : ∀ e ∈ cat, openingMatches g e = false)
    (hop : g.opening = none) : classifyGame cat g = g := by
  have hfil : cat.filter (fun e => openingMatches g e) = [] :=
    List.filter_eq_nil_iff.mpr (fun e he => by simp [hnm e he])
  have hsel : selectOpening g cat = none := by
    simp [selectOpening, hfil]
  simp [classifyGame, hop, hsel]

/-- C8: a game matching no catalogue entry keeps `eco` and `opening` null
through enrichment, and the enrichment pass still completes over the whole
store (the result has one row per input row). -/
theorem c8_no_match_keeps_null (lbl : String) (cat : List OpeningEntry)
    (store : List Game) (i : Nat) (h : i < store.length)
    (hnm : ∀ e ∈ cat, openingMatches (store.get ⟨i, h⟩) e = false)
    (heco : (store.get ⟨i, h⟩).eco = none)
    (hop : (store.get ⟨i, h⟩).opening = none) :
    (enrichStore lbl cat store).length = store.length ∧
    ∃ h₂ : i < (enrichStore lbl cat store).length,
      ((enrichStore lbl cat store).get ⟨i, h₂⟩).eco = none ∧
      ((enrichStore lbl cat store).get ⟨i, h₂⟩).opening = none := by
  have hlen : (enrichStore lbl cat store).length = store.length := by
    simp [enrichStore, classifyStore]
  have h₂ : i < (enrichStore lbl cat store).length := hlen ▸ h
  have hget : (enrichStore lbl cat store).get ⟨i, h₂⟩ =
      classifyGame cat (setDataSource lbl (store.get ⟨i, h⟩)) := by
    simp [enrichStore, classifyStore, List.get_eq_getElem]
  have hnoc : classifyGame cat (setDataSource lbl (store.get ⟨i, h⟩)) =
      setDataSource lbl (store.get ⟨i, h⟩) :=
    classifyGame_no_match cat _ hnm hop
  refine ⟨hlen, h₂, ?_, ?_⟩
  · rw [hget, hnoc]
    exact heco
  · rw [hget, hnoc]
    exact hop

/-- Witness for C8: a 1. d4 d5 game against a catalogue holding only the
French Defense stays unclassified and the store keeps its single row. -/
theorem c8_no_match_keeps_null_witness :
    (enrichStore "lumbras" [frenchDefense]
        [{ baseGame with cleanMovetext := "1. d4 d5" }]).length = 1 ∧
    ∃ h₂ : 0 < (enrichStore "lumbras" [frenchDefense]
        [{ baseGame with cleanMovetext := "1. d4 d5" }]).length,
      ((enrichStore "lumbras" [frenchDefense]
        [{ baseGame with cleanMovetext := "1. d4 d5" }]).get ⟨0, h₂⟩).eco = none ∧
      ((enrichStore "lumbras" [frenchDefense]
        [{ baseGame with cleanMovetext := "1. d4 d5" }]).get ⟨0, h₂⟩).opening = none :=
  c8_no_match_keeps_null "lumbras" [frenchDefense]
    [{ baseGame with cleanMovetext := "1. d4 d5" }] 0 (by decide)
    (by decide) rfl rfl

/-! Helper lemmas about membership in the consolidated output. -/

theorem foldl_append_mem {α β : Type} (f : β → List α) (l : List β) (init : List α) (x : α) :
    x ∈ l.foldl (fun acc s => acc ++ f s) init ↔ x ∈ init ∨ ∃ s ∈ l, x ∈ f s := by
  induction l generalizing init with
  | nil => simp
  | cons b t ih =>
    rw [List.foldl_cons, ih]
    simp [List.mem_append, or_assoc]

theorem mem_filteredRows {ov : Option String} {s : List Game} {r : Row} :
    r ∈ filteredRows ov s ↔ ∃ g ∈ s, exportFilter g = true ∧ r = projectRow ov g := by
  simp only [filteredRows, List.mem_map, List.mem_filter]
  constructor
  · rintro ⟨g, ⟨hg, hf⟩, rfl⟩
    exact ⟨g, hg, hf, rfl⟩
  · rintro ⟨g, hg, hf, rfl⟩
    exact ⟨g, ⟨hg, hf⟩, rfl⟩

theorem mem_consolidate {ov : Option String} {stores : List (List Game)} {r : Row} :
    r ∈ consolidate ov stores ↔
      ∃ s ∈ stores, ∃ g ∈ s, exportFilter g = true ∧ r = projectRow ov g := by
  rw [consolidate, foldl_append_mem]
  simp [mem_filteredRows]

theorem exportFilter_iff (g : Game) :
    exportFilter g = true ↔ ∃ d, g.utcDate = some d ∧ 1500 ≤ d.year := by
  cases h : g.utcDate with
  | none => simp [exportFilter, h]
  | some d => simp [exportFilter, h]

/-- C5: a source row reaches the consolidated output exactly when its
`UTCDate` is non-null with year at least 1500: every such row's projection
is in the output, and every output row is the projection of such a row. -/
theorem c5_date_filter (ov : Option String) (stores : List (List Game)) :
    (∀ s ∈ stores, ∀ g ∈ s, (∃ d, g.utcDate = some d ∧ 1500 ≤ d.year) →
        projectRow ov g ∈ consolidate ov stores) ∧
    (∀ r ∈ consolidate ov stores,
        ∃ s ∈ stores, ∃ g ∈ s, (∃ d, g.utcDate = some d ∧ 1500 ≤ d.year) ∧
          r = projectRow ov g) := by
  constructor
  · intro s hs g hg hd
    exact mem_consolidate.mpr ⟨s, hs, g, hg, (exportFilter_iff g).mpr hd, rfl⟩
  · intro r hr
    obtain ⟨s, hs, g, hg, hf, rfl⟩ := mem_consolidate.mp hr
    exact ⟨s, hs, g, hg, (exportFilter_iff g).mp hf, rfl⟩

/-- Witness for C5: a 2020 game is exported. -/
theorem c5_date_filter_witness :
    projectRow none baseGame ∈ consolidate none [[baseGame]] :=
  (c5_date_filter none [[baseGame]]).1 [baseGame] (by simp) baseGame (by simp)
    ⟨⟨2020, 5, 17⟩, rfl, by decide⟩

/-- C6: with a fixed dataSource override every output row carries the
override; without one, every output row keeps the `DataSource` stored in
its source row. -/
theorem c6_data_source_override (stores : List (List Game)) :
    (∀ lbl : String, ∀ r ∈ consolidate (some lbl) stores, r.dataSource = some lbl) ∧
    (∀ r ∈ consolidate none stores,
        ∃ s ∈ stores, ∃ g ∈ s, exportFilter g = true ∧
          r = projectRow none g ∧ r.dataSource = g.dataSource) := by
  constructor
  · intro lbl r hr
    obtain ⟨s, hs, g, hg, hf, rfl⟩ := mem_consolidate.mp hr
    rfl
  · intro r hr
    obtain ⟨s, hs, g, hg, hf, rfl⟩ := mem_consolidate.mp hr
    exact ⟨s, hs, g, hg, hf, rfl, rfl⟩

/-- Witness for C6: a row whose store carries DataSource "orig" is
exported with the override label "fixed". -/
theorem c6_data_source_override_witness :
    (projectRow (some "fixed") origGame).dataSource = some "fixed" :=
  (c6_data_source_override [[origGame]]).1 "fixed"
    (projectRow (some "fixed") origGame)
    (mem_consolidate.mpr ⟨[origGame], by simp, origGame, by simp, by decide, rfl⟩)

/-- Counterexample to C3: the code consults `parseError` nowhere, so a
game with non-null `parseError`, null `opening` and a 2020 date is both
classified by the enrichment UPDATE and included in the consolidated
export. -/
theorem c3_counterexample :
    badParseGame.parseError ≠ none ∧
    (classifyGame [kingsPawn] badParseGame).opening = some "Kings Pawn Game" ∧
    projectRow none badParseGame ∈ consolidate none [[badParseGame]] := by
  refine ⟨by decide, by decide, ?_⟩
  exact mem_consolidate.mpr ⟨[badParseGame], by simp, badParseGame, by simp, by decide, rfl⟩

/-- C3 amended: neither the classifier nor the export consults
`parseError`: the classification outcome of a game is unchanged under any
change of `parseError`, the export filter ignores it, and a game with
non-null `parseError` passing the date filter is exported. -/
theorem c3_parse_error_not_consulted (cat : List OpeningEntry) (g : Game) (p : Option String) :
    (classifyGame cat { g with parseError := p }).eco = (classifyGame cat g).eco ∧
    (classifyGame cat { g with parseError := p }).opening = (classifyGame cat g).opening ∧
    (classifyGame cat { g with parseError := p }).parseError = p ∧
    exportFilter { g with parseError := p } = exportFilter g ∧
    (∀ (ov : Option String) (s : List Game) (stores : List (List Game)),
      s ∈ stores → { g with parseError := p } ∈ s → exportFilter g = true →
      projectRow ov { g with parseError := p } ∈ consolidate ov stores) := by
  have hmain : ∀ g' : Game, g' = { g with parseError := p } →
      (classifyGame cat g').eco = (classifyGame cat g).eco ∧
      (classifyGame cat g').opening = (classifyGame cat g).opening ∧
      (classifyGame cat g').parseError = p := by
    intro g' hg'
    have hopg : g'.opening = g.opening := by rw [hg']
    have hselg : selectOpening g' cat = selectOpening g cat := by
      subst hg'
      rfl
    have heco : g'.eco = g.eco := by rw [hg']
    have hpe : g'.parseError = p := by rw [hg']
    cases hop : g.opening with
    | some x =>
      have hop' : g'.opening = some x := by rw [hopg, hop]
      rw [classifyGame_of_classified cat g' x hop',
        classifyGame_of_classified cat g x hop]
      exact ⟨heco, hopg, hpe⟩
    | none =>
      have hop' : g'.opening = none := by rw [hopg, hop]
      cases hs : selectOpening g cat with
      | none =>
        have hs' : selectOpening g' cat = none := by rw [hselg, hs]
        rw [classifyGame_of_no_selection cat g' hop' hs',
          classifyGame_of_no_selection cat g hop hs]
        exact ⟨heco, hopg, hpe⟩
      | some e =>
        have hs' : selectOpening g' cat = some e := by rw [hselg, hs]
        rw [classifyGame_of_selection cat g' e hop' hs',
          classifyGame_of_selection cat g e hop hs]
        exact ⟨rfl, rfl, hpe⟩
  obtain ⟨h1, h2, h3⟩ := hmain _ rfl
  exact ⟨h1, h2, h3, rfl, fun ov s stores hs hg hf =>
    mem_consolidate.mpr ⟨s, hs, _, hg, hf, rfl⟩⟩

/-- Witness for C3 amended: the parse-error game of the counterexample is
classified just like its error-free twin and is exported. -/
theorem c3_parse_error_not_consulted_witness :
    (classifyGame [kingsPawn] badParseGame).opening =
      (classifyGame [kingsPawn] baseGame).opening ∧
    projectRow none badParseGame ∈ consolidate none [[badParseGame]] := by
  obtain ⟨-, h2, -, -, h5⟩ :=
    c3_parse_error_not_consulted [kingsPawn] baseGame (some "Invalid SAN at ply 7")
  exact ⟨h2, h5 none [badParseGame] [[badParseGame]] (List.mem_singleton.mpr rfl)
    (List.mem_singleton.mpr rfl) (by decide)⟩

/-! Helper lemmas about the path ordering of discovered stores. -/

theorem pathLe_total : ∀ a b : List Char, pathLe a b = true ∨ pathLe b a = true
  | [], _ => Or.inl rfl
  | _ :: _, [] => Or.inr rfl
  | c :: cs, d :: ds => by
    rcases Nat.lt_trichotomy c.toNat d.toNat with h | h | h
    · exact Or.inl (by simp [pathLe, h])
    · rcases pathLe_total cs ds with ih | ih
      · exact Or.inl (by simp [pathLe, h, ih])
      · exact Or.inr (by simp [pathLe, h, ih])
    · exact Or.inr (by simp [pathLe, h])

theorem pathLe_trans : ∀ a b c : List Char,
    pathLe a b = true → pathLe b c = true → pathLe a c = true
  | [], _, _, _, _ => rfl
  | _ :: _, [], _, hab, _ => by simp [pathLe] at hab
  | _ :: _, _ :: _, [], _, hbc => by simp [pathLe] at hbc
  | x :: xs, y :: ys, z :: zs, hab, hbc => by
    simp only [pathLe] at hab hbc ⊢
    rcases Nat.lt_trichotomy x.toNat y.toNat with h1 | h1 | h1
    · rcases Nat.lt_trichotomy y.toNat z.toNat with h2 | h2 | h2
      · simp [Nat.lt_trans h1 h2]
      · simp [h2 ▸ h1]
      · rw [if_neg (Nat.lt_asymm h2), if_pos h2] at hbc
        simp at hbc
    · rcases Nat.lt_trichotomy y.toNat z.toNat with h2 | h2 | h2
      · simp [h1, h2]
      · rw [if_neg (by omega), if_neg (by omega)] at hab
        rw [if_neg (by omega), if_neg (by omega)] at hbc
        rw [if_neg (by omega), if_neg (by omega)]
        exact pathLe_trans xs ys zs hab hbc
      · rw [if_neg (Nat.lt_asymm h2), if_pos h2] at hbc
        simp at hbc
    · rw [if_neg (Nat.lt_asymm h1), if_pos h1] at hab
      simp at hab

theorem pathLe_antisymm : ∀ a b : List Char,
    pathLe a b = true → pathLe b a = true → a = b
  | [], [], _, _ => rfl
  | [], _ :: _, _, hba => by simp [pathLe] at hba
  | _ :: _, [], hab, _ => by simp [pathLe] at hab
  | x :: xs, y :: ys, hab, hba => by
    simp only [pathLe] at hab hba
    rcases Nat.lt_trichotomy x.toNat y.toNat with h1 | h1 | h1
    · rw [if_neg (Nat.lt_asymm h1), if_pos h1] at hba
      simp at hba
    · rw [if_neg (by omega), if_neg (by omega)] at hab
      rw [if_neg (by omega), if_neg (by omega)] at hba
      have hx : x = y := by
        have h := congrArg Char.ofNat h1
        rwa [Char.ofNat_toNat, Char.ofNat_toNat] at h
      rw [hx, pathLe_antisymm xs ys hab hba]
    · rw [if_neg (Nat.lt_asymm h1), if_pos h1] at hab
      simp at hab

instance : IsTotal (String × List Game) storeOrder :=
  ⟨fun a b => pathLe_total a.1.data b.1.data⟩

instance : IsTrans (String × List Game) storeOrder :=
  ⟨fun a b c => pathLe_trans a.1.data b.1.data c.1.data⟩

instance : IsAntisymm (String × List Game) storeLt :=
  ⟨fun a b h1 h2 =>
    absurd (congrArg String.mk (pathLe_antisymm a.1.data b.1.data h1.1 h2.1) : a.1 = b.1) h1.2⟩

theorem sortStores_pairwise (files : List (String × List Game)) :
    (sortStores files).Pairwise storeOrder :=
  List.sorted_insertionSort storeOrder files

theorem sortStores_perm (files : List (String × List Game)) :
    List.Perm (sortStores files) files :=
  List.perm_insertionSort storeOrder files

theorem sortStores_eq_of_perm (files files' : List (String × List Game))
    (hnd : (files.map Prod.fst).Nodup) (hp : List.Perm files' files) :
    sortStores files' = sortStores files := by
  have hsorted : ∀ fl : List (String × List Game), List.Perm fl files →
      List.Sorted storeLt (sortStores fl) := by
    intro fl hfl
    have hnd2 : ((sortStores fl).map Prod.fst).Nodup :=
      (((sortStores_perm fl).trans hfl).map Prod.fst).nodup_iff.mpr hnd
    have hne : (sortStores fl).Pairwise (fun a b => a.1 ≠ b.1) :=
      List.pairwise_map.mp hnd2
    exact ((sortStores_pairwise fl).and hne).imp (fun h => h)
  exact List.eq_of_perm_of_sorted
    ((sortStores_perm files').trans (hp.trans (sortStores_perm files).symm))
    (hsorted files' hp) (hsorted files (List.Perm.refl files))

/-- C7: consolidation is clean-slate and deterministic: for a fixed input
set (any permutation of the discovered stores, paths distinct), the run's
full output, hence its partition membership and per-partition row counts,
is independent of whatever the previous output held, and re-running on top
of the produced output reproduces it exactly. -/
theorem c7_clean_slate_deterministic (ov : Option String)
    (files files' : List (String × List Game))
    (hnd : (files.map Prod.fst).Nodup) (hp : List.Perm files' files)
    (prev prev' : List Row) :
    runConsolidation prev ov files' = runConsolidation prev' ov files ∧
    (∀ k, partitionCount (runConsolidation prev ov files') k =
      partitionCount (runConsolidation prev' ov files) k) ∧
    runConsolidation (runConsolidation prev' ov files) ov files =
      runConsolidation prev' ov files := by
  have h1 : runConsolidation prev ov files' = runConsolidation prev' ov files := by
    unfold runConsolidation writePartitioned clearOutput storesOf
    rw [sortStores_eq_of_perm files files' hnd hp]
  exact ⟨h1, fun k => by rw [h1], rfl⟩

/-- Witness for C7: two stores discovered in either order, over distinct
prior output states, consolidate identically. -/
theorem c7_clean_slate_deterministic_witness :
    runConsolidation [projectRow none baseGame] none [bStore, aStore] =
      runConsolidation [] none [aStore, bStore] :=
  (c7_clean_slate_deterministic none [aStore, bStore] [bStore, aStore]
    (by decide) (List.Perm.swap aStore bStore [])
    [projectRow none baseGame] []).1

/-! Helper lemma for the enrichment destination paths. -/

theorem append_eq_append_compare {a b x y : List String} (h : a ++ x = b ++ y) :
    a <+: b ∨ b <+: a := by
  rcases List.append_eq_append_iff.mp h with ⟨a2, ha, -⟩ | ⟨c2, hc, -⟩
  · exact Or.inl ⟨a2, ha.symm⟩
  · exact Or.inr ⟨c2, hc.symm⟩

/-- Counterexample to C9: when the enrichment output directory equals the
input directory, the destination path coincides with the input path and
the loop overwrites the input store in place with its enriched contents. -/
theorem c9_counterexample :
    dstPath ["data"] ["data"] ["data", "games.duckdb"] = ["data", "games.duckdb"] ∧
    runEnricher ["data"] ["data"] "lumbras" [] [["data", "games.duckdb"]]
        (fun p => if p = ["data", "games.duckdb"] then some [baseGame] else none)
        ["data", "games.duckdb"] =
      some [setDataSource "lumbras" baseGame] ∧
    setDataSource "lumbras" baseGame ≠ baseGame := by
  exact ⟨rfl, by decide, by decide⟩

/-- C9 amended: provided the output directory is neither equal to nor
nested with the input directory (neither path is a prefix of the other),
every destination path differs from every path under the input directory,
and the enrichment loop leaves the content at every path under the input
directory unchanged. -/
theorem c9_input_not_mutated (inDir outDir : List String)
    (h1 : ¬ inDir <+: outDir) (h2 : ¬ outDir <+: inDir)
    (lbl : String) (cat : List OpeningEntry)
    (srcs : List (List String)) (fs : FS) :
    (∀ rel : List String, dstPath inDir outDir (inDir ++ rel) ≠ inDir ++ rel) ∧
    (∀ q : List String, inDir <+: q →
      runEnricher inDir outDir lbl cat srcs fs q = fs q) := by
  have key : ∀ src q : List String, inDir <+: q → dstPath inDir outDir src ≠ q := by
    intro src q hq hne
    obtain ⟨t, ht⟩ := hq
    rw [dstPath, ← ht] at hne
    rcases append_eq_append_compare hne with hpre | hpre
    · exact h2 hpre
    · exact h1 hpre
  have pres : ∀ (l : List (List String)) (f : FS) (q : List String), inDir <+: q →
      runEnricher inDir outDir lbl cat l f q = f q := by
    intro l
    induction l with
    | nil => intro f q _; rfl
    | cons s t ih =>
      intro f q hq
      show runEnricher inDir outDir lbl cat t (enrichStep inDir outDir lbl cat f s) q = f q
      rw [ih _ q hq]
      show (if q = dstPath inDir outDir s then _ else f q) = f q
      rw [if_neg (fun he => key s q hq he.symm)]
  exact ⟨fun rel => key (inDir ++ rel) (inDir ++ rel) ⟨rel, rfl⟩, pres srcs fs⟩

/-- Witness for C9 amended: with input directory "in" and output directory
"out", the destination of a store differs from its source and the loop
leaves the source entry unchanged. -/
theorem c9_input_not_mutated_witness :
    dstPath ["in"] ["out"] (["in"] ++ ["games.duckdb"]) ≠ ["in"] ++ ["games.duckdb"] ∧
    runEnricher ["in"] ["out"] "lumbras" [] [["in", "games.duckdb"]]
        (fun p => if p = ["in", "games.duckdb"] then some [baseGame] else none)
        (["in"] ++ ["games.duckdb"]) =
      (fun p => if p = ["in", "games.duckdb"] then some [baseGame] else none)
        (["in"] ++ ["games.duckdb"]) := by
  obtain ⟨ha, hb⟩ := c9_input_not_mutated ["in"] ["out"] (by decide) (by decide)
    "lumbras" [] [["in", "games.duckdb"]]
    (fun p => if p = ["in", "games.duckdb"] then some [baseGame] else none)
  exact ⟨ha ["games.duckdb"], hb (["in"] ++ ["games.duckdb"]) ⟨["games.duckdb"], rfl⟩⟩

/-! Helper lemma for the SQL string literal escaping. -/

theorem sqlLiteralValue_sqlEscape (l : List Char) :
    sqlLiteralValue (sqlEscape l) = some l := by
  induction l with
  | nil => rfl
  | cons c cs ih =>
    by_cases hc : c = quoteChar
    · subst hc
      simp [sqlEscape, sqlLiteralValue, ih]
    · rw [show sqlEscape (c :: cs) = c :: sqlEscape cs from by simp [sqlEscape, hc]]
      cases hsc : sqlEscape cs with
      | nil =>
        rw [hsc] at ih
        have hcs : cs = [] := by
          have h0 : (some [] : Option (List Char)) = some cs := ih
          simpa using h0.symm
        subst hcs
        simp [sqlLiteralValue, hc]
      | cons d ds =>
        rw [hsc] at ih
        simp [sqlLiteralValue, hc, ih]

/-- C10: the `sqlStringLiteral` escaping (doubling every single quote)
round-trips through SQL literal interpretation for every string, and the
embedded `UPDATE games SET DataSource = '...'` therefore sets every row's
DataSource to exactly the caller-supplied label, quotes included. -/
theorem c10_sql_literal_roundtrip (s : String) (store : List Game) :
    sqlLiteralValue (sqlStringLiteral s).data = some s.data ∧
    dataSourceUpdate (sqlStringLiteral s).data store =
      some (store.map (setDataSource s)) ∧
    (∀ out, dataSourceUpdate (sqlStringLiteral s).data store = some out →
      ∀ g ∈ out, g.dataSource = some s) := by
  have h1 : sqlLiteralValue (sqlStringLiteral s).data = some s.data :=
    sqlLiteralValue_sqlEscape s.data
  have h2 : dataSourceUpdate (sqlStringLiteral s).data store =
      some (store.map (setDataSource s)) := by
    rw [dataSourceUpdate, h1]
    rfl
  refine ⟨h1, h2, ?_⟩
  intro out hout g hg
  rw [h2] at hout
  injection hout with hout
  subst hout
  obtain ⟨g₀, -, rfl⟩ := List.mem_map.mp hg
  rfl

/-- Witness for C10: a label containing a single quote survives the
round trip and is written to every row. -/
theorem c10_sql_literal_roundtrip_witness :
    sqlLiteralValue (sqlStringLiteral quoteLabel).data = some quoteLabel.data ∧
    ∀ g ∈ [baseGame].map (setDataSource quoteLabel), g.dataSource = some quoteLabel := by
  obtain ⟨h1, h2, h3⟩ := c10_sql_literal_roundtrip quoteLabel [baseGame]
  exact ⟨h1, h3 _ h2⟩

end ChessLakehouse
